import Mathlib

set_option maxRecDepth 16384

/-!
Shallow embedding of the messaging data model and operations of the
repository (Django-signals_orm-0x04/messaging plus the generator and
decorator utility scripts), with theorems checking the specification's
claims against the embedded code.

Conventions of the embedding:
* users are identified by their numeric primary key (`Nat`); the username
  lookup needed for notification titles is passed as a function
  `uname : Nat → String`;
* `timezone.now()` is passed in as a `Nat` instant `now`;
* rows are records, tables are lists of records, the database is a record
  of tables plus the auto-increment counter for message primary keys;
* fallible operations return `Except SaveErr`.
-/

/-- A persisted or in-memory `Message` row (messaging/models.py, class
`Message`).  `pk = none` models an unsaved instance (Django `self.pk is
None`); `parent_message` stores the parent's primary key. -/
structure Message where
  pk : Option Nat
  sender : Nat
  receiver : Nat
  content : String
  timestamp : Nat
  edited : Bool
  edited_at : Option Nat
  parent_message : Option Nat
  thread_level : Nat
  reply_count : Nat
deriving Repr, DecidableEq

/-- A `MessageHistory` row (messaging/models.py, class `MessageHistory`). -/
structure MessageHistory where
  message : Nat
  old_content : String
  edited_by : Nat
  edited_at : Nat
  version : Nat
deriving Repr, DecidableEq

/-- A `Notification` row (messaging/models.py, class `Notification`). -/
structure Notification where
  user : Nat
  message : Nat
  title : String
  content : String
  is_read : Bool
  created_at : Nat
deriving Repr, DecidableEq

/-- The database state: the three tables the messaging app writes, plus
the auto-increment counter used for new message primary keys. -/
structure DB where
  messages : List Message
  history : List MessageHistory
  notifications : List Notification
  nextId : Nat
deriving Repr, DecidableEq

/-- Errors a save can raise: `Message.objects.get(pk=...)` raising
`Message.DoesNotExist`, and a reply referencing a non-existent parent id
(spec: "a save referencing a non-existent parent id fails with NotFound"). -/
inductive SaveErr where
  | doesNotExist
  | parentNotFound
deriving Repr, DecidableEq

/-- `Message.objects.get(pk=i)` : the first row of the table whose primary
key is `i`, if any. -/
def Message.objects_get (msgs : List Message) (i : Nat) : Option Message :=
  msgs.find? (fun m => m.pk == some i)

/-- Live count of a message's direct children: the number of rows whose
`parent_message` is `p` (`self.parent_message.replies.count()`). -/
def live_reply_count (msgs : List Message) (p : Nat) : Nat :=
  (msgs.filter (fun m => m.parent_message == some p)).length

/-- Next history version for message `i`
(signals.py lines 31-32: `MessageHistory.objects.filter(message=original)
.order_by('-version').first()`, then `last_history.version + 1` if a row
exists else `1`). -/
def next_version (db : DB) (i : Nat) : Nat :=
  match ((db.history.filter (fun h => h.message == i)).map
      (fun h => h.version)).max? with
  | some v => v + 1
  | none => 1

/-- The `pre_save` handler `log_message_edit` (signals.py lines 22-43):
for an existing message whose content is changing, read the pre-image row
and append one history row carrying the old content, the editing sender
and the next version; if the pre-image read finds no row
(`Message.DoesNotExist`), skip silently. -/
def log_message_edit (now : Nat) (db : DB) (inst : Message) : DB :=
  match inst.pk with
  | none => db
  | some i =>
    match Message.objects_get db.messages i with
    | none => db
    | some original =>
      if original.content != inst.content then
        { db with history := db.history ++
            [{ message := i, old_content := original.content,
               edited_by := inst.sender, edited_at := now,
               version := next_version db i }] }
      else db

/-- The notification row built by `create_message_notification`
(signals.py lines 14-19): addressed to the message's receiver, title
derived from the sender's username, content a 50-character truncated
preview of the message content. -/
def mk_message_notification (uname : Nat → String) (now : Nat)
    (inst : Message) : Notification :=
  { user := inst.receiver, message := inst.pk.getD 0,
    title := "New message from " ++ uname inst.sender,
    content := "You have received a new message: "
      ++ inst.content.take 50 ++ "...",
    is_read := false, created_at := now }

/-- The `post_save` handler `create_message_notification`
(signals.py lines 10-19): only when the save was a creation and
sender ≠ receiver, insert exactly one notification. -/
def create_message_notification (uname : Nat → String) (now : Nat)
    (db : DB) (inst : Message) (created : Bool) : DB :=
  if created && inst.sender != inst.receiver then
    { db with notifications := db.notifications ++
        [mk_message_notification uname now inst] }
  else db

/-- `super().save(...)` for `Message`: fires `pre_save`
(`log_message_edit`), then inserts (assigning the fresh primary key) or
updates the row, then fires `post_save` (`create_message_notification`)
with the `created` flag.  Returns the updated database and the saved row
(whose `pk` is now always set, as Django sets `self.pk` on insert). -/
def base_save (uname : Nat → String) (now : Nat) (db : DB)
    (inst : Message) : DB × Message :=
  let db1 := log_message_edit now db inst
  match inst.pk with
  | none =>
    let row := { inst with pk := some db1.nextId }
    let db2 := { db1 with
      messages := db1.messages ++ [row],
      nextId := db1.nextId + 1 }
    (create_message_notification uname now db2 row true, row)
  | some i =>
    match Message.objects_get db1.messages i with
    | some _ =>
      let db2 := { db1 with
        messages :=
          db1.messages.map (fun x => if x.pk == some i then inst else x) }
      (create_message_notification uname now db2 inst false, inst)
    | none =>
      let db2 := { db1 with messages := db1.messages ++ [inst] }
      (create_message_notification uname now db2 inst true, inst)

/-- models.py lines 70-76: when a parent is set, derive
`thread_level := parent.thread_level + 1` and force the receiver to the
parent's other participant (`parent.receiver` when the sender matches
`parent.sender`, else `parent.sender`). -/
def adjust_thread (db : DB) (inst : Message) : Except SaveErr Message :=
  match inst.parent_message with
  | none => .ok inst
  | some p =>
    match Message.objects_get db.messages p with
    | none => .error .parentNotFound
    | some parent =>
      .ok { inst with
            thread_level := parent.thread_level + 1,
            receiver := if parent.sender == inst.sender then parent.receiver
                        else parent.sender }

/-- models.py lines 79-83: for an existing row, read the original with an
UNGUARDED `Message.objects.get(pk=self.pk)` (raising `DoesNotExist` when
the row vanished) and flip `edited`/`edited_at` when content differs. -/
def track_edit (now : Nat) (db : DB) (inst : Message) :
    Except SaveErr Message :=
  match inst.pk with
  | none => .ok inst
  | some i =>
    match Message.objects_get db.messages i with
    | none => .error .doesNotExist
    | some original =>
      if original.content != inst.content then
        .ok { inst with edited := true, edited_at := some now }
      else .ok inst

/-- models.py lines 88-90: recompute the parent's `reply_count` as the
live count of its direct children and persist it
(`update_fields=['reply_count']`). -/
def update_parent_reply_count (db : DB) (p : Nat) : DB :=
  match Message.objects_get db.messages p with
  | none => db
  | some parent =>
    let cnt := live_reply_count db.messages p
    { db with
      messages := db.messages.map
        (fun x => if x.pk == some p then { parent with reply_count := cnt }
                  else x) }

/-- `Message.save` (models.py lines 68-90): thread-field adjustment, edit
tracking, `super().save()` (which fires the two signal handlers), then the
parent reply-count block — which the source guards with
`if self.parent_message and not self.pk:` AFTER `super().save()` has
already assigned `self.pk`, so the guard can only pass when the saved row
still has no primary key. -/
def Message.save (uname : Nat → String) (now : Nat) (db : DB)
    (inst : Message) : Except SaveErr (DB × Message) :=
  match adjust_thread db inst with
  | .error e => .error e
  | .ok adjusted =>
    match track_edit now db adjusted with
    | .error e => .error e
    | .ok checked =>
      let saveRes := base_save uname now db checked
      let db1 := saveRes.1
      let saved := saveRes.2
      if saved.parent_message.isSome && saved.pk == none then
        .ok (update_parent_reply_count db1 (saved.parent_message.getD 0),
             saved)
      else
        .ok (db1, saved)

/-! ### Basic facts about the save pipeline -/

theorem log_message_edit_messages (now : Nat) (db : DB) (inst : Message) :
    (log_message_edit now db inst).messages = db.messages := by
  unfold log_message_edit
  split
  · rfl
  · split
    · rfl
    · split <;> rfl

theorem log_message_edit_nextId (now : Nat) (db : DB) (inst : Message) :
    (log_message_edit now db inst).nextId = db.nextId := by
  unfold log_message_edit
  split
  · rfl
  · split
    · rfl
    · split <;> rfl

theorem log_message_edit_notifications (now : Nat) (db : DB)
    (inst : Message) :
    (log_message_edit now db inst).notifications = db.notifications := by
  unfold log_message_edit
  split
  · rfl
  · split
    · rfl
    · split <;> rfl

/-- The row returned by `base_save` always carries a primary key: Django
assigns `self.pk` during the insert, and updates keep the existing key. -/
theorem base_save_pk_isSome (uname : Nat → String) (now : Nat) (db : DB)
    (inst : Message) : (base_save uname now db inst).2.pk.isSome := by
  unfold base_save
  split
  · simp
  · dsimp only
    split <;> simp_all

/-- Because `super().save()` has already assigned `self.pk`, the guard
`if self.parent_message and not self.pk:` of models.py line 88 is never
taken: `Message.save` is exactly the adjust / track / base-save pipeline,
and the parent's `reply_count` recomputation is dead code. -/
theorem Message.save_eq (uname : Nat → String) (now : Nat) (db : DB)
    (inst : Message) :
    Message.save uname now db inst =
      (match adjust_thread db inst with
       | .error e => .error e
       | .ok adjusted =>
         match track_edit now db adjusted with
         | .error e => .error e
         | .ok checked => .ok (base_save uname now db checked)) := by
  unfold Message.save
  split
  · rfl
  · rename_i adjusted heq1
    split
    · rfl
    · rename_i checked heq2
      dsimp only
      have h := base_save_pk_isSome uname now db checked
      cases hq : (base_save uname now db checked).2.pk with
      | none => rw [hq] at h; simp at h
      | some k => simp [hq]

/-! ### Claim C1: parent reply_count after creating a reply -/

/-- A fixed username table for concrete scenarios. -/
def uname0 : Nat → String := fun _ => "alice"

/-- Concrete scenario for claim C1: a root message with primary key 1 from
user 1 to user 2, with no replies yet and `reply_count = 0`. -/
def c1_parent : Message :=
  { pk := some 1, sender := 1, receiver := 2, content := "Hi",
    timestamp := 0, edited := false, edited_at := none,
    parent_message := none, thread_level := 0, reply_count := 0 }

def c1_db : DB :=
  { messages := [c1_parent], history := [], notifications := [],
    nextId := 2 }

/-- The new reply from user 2 with `parent_message = 1`, not yet saved. -/
def c1_reply : Message :=
  { pk := none, sender := 2, receiver := 1, content := "Hello",
    timestamp := 1, edited := false, edited_at := none,
    parent_message := some 1, thread_level := 0, reply_count := 0 }

/-- C1: creating a reply to message 1 succeeds, but the stored
`reply_count` of the parent remains `0` while the live count of its
direct children is `1`: the recomputation block of models.py lines 88-90
is guarded by `not self.pk` after `super().save()` has already assigned
`self.pk`, so it never runs and the stored count diverges from the live
count, contradicting the claim (and the source's own comment
"Only for new replies"). -/
theorem c1_reply_count_stale :
    (Message.save uname0 5 c1_db c1_reply).toOption.map
        (fun r => ((Message.objects_get r.1.messages 1).map
                     Message.reply_count,
                   live_reply_count r.1.messages 1))
      = some (some 0, 1) := by
  decide

/-! ### Field bookkeeping for the save pipeline -/

theorem adjust_thread_none (db : DB) (inst : Message)
    (h : inst.parent_message = none) : adjust_thread db inst = .ok inst := by
  simp [adjust_thread, h]

theorem adjust_thread_some (db : DB) (inst parent : Message) (p : Nat)
    (hp : inst.parent_message = some p)
    (hg : Message.objects_get db.messages p = some parent) :
    adjust_thread db inst = .ok { inst with
      thread_level := parent.thread_level + 1,
      receiver := if parent.sender == inst.sender then parent.receiver
                  else parent.sender } := by
  simp [adjust_thread, hp, hg]

/-- The edit-tracking step only flips `edited`/`edited_at`: every other
field of the instance is preserved. -/
theorem track_edit_ok_fields (now : Nat) (db : DB) (a b : Message)
    (h : track_edit now db a = .ok b) :
    b.thread_level = a.thread_level ∧ b.receiver = a.receiver ∧
    b.parent_message = a.parent_message ∧ b.content = a.content ∧
    b.sender = a.sender ∧ b.pk = a.pk := by
  unfold track_edit at h
  split at h
  · injection h with h; subst h; exact ⟨rfl, rfl, rfl, rfl, rfl, rfl⟩
  · split at h
    · exact Except.noConfusion h
    · split at h
      · injection h with h; subst h; exact ⟨rfl, rfl, rfl, rfl, rfl, rfl⟩
      · injection h with h; subst h; exact ⟨rfl, rfl, rfl, rfl, rfl, rfl⟩

/-- The thread-adjustment step preserves `pk`, `sender`, `content` and
`edited`; it only rewrites `thread_level` and `receiver`. -/
theorem adjust_thread_ok_fields (db : DB) (inst a : Message)
    (h : adjust_thread db inst = .ok a) :
    a.pk = inst.pk ∧ a.sender = inst.sender ∧ a.content = inst.content ∧
    a.edited = inst.edited := by
  unfold adjust_thread at h
  split at h
  · injection h with h; subst h; exact ⟨rfl, rfl, rfl, rfl⟩
  · split at h
    · exact Except.noConfusion h
    · injection h with h; subst h; exact ⟨rfl, rfl, rfl, rfl⟩

/-- The row persisted by `super().save()` keeps every field of the
instance except possibly the freshly assigned primary key. -/
theorem base_save_snd_fields (uname : Nat → String) (now : Nat) (db : DB)
    (c : Message) :
    (base_save uname now db c).2.thread_level = c.thread_level ∧
    (base_save uname now db c).2.receiver = c.receiver ∧
    (base_save uname now db c).2.parent_message = c.parent_message ∧
    (base_save uname now db c).2.sender = c.sender ∧
    (base_save uname now db c).2.content = c.content ∧
    (base_save uname now db c).2.edited = c.edited := by
  unfold base_save
  split
  · exact ⟨rfl, rfl, rfl, rfl, rfl, rfl⟩
  · dsimp only
    split <;> exact ⟨rfl, rfl, rfl, rfl, rfl, rfl⟩

/-! ### Claim C6: thread_level / receiver invariants after a save -/

/-- An unsaved root message whose in-memory `thread_level` is 5: the save
path never resets `thread_level` when no parent is set. -/
def c6_inst : Message :=
  { pk := none, sender := 1, receiver := 2, content := "x", timestamp := 0,
    edited := false, edited_at := none, parent_message := none,
    thread_level := 5, reply_count := 0 }

def c6_db : DB :=
  { messages := [], history := [], notifications := [], nextId := 1 }

/-- C6 counterexample: saving a parentless message whose instance
`thread_level` is 5 persists a row with `parent_message = none` and
`thread_level = 5 ≠ 0` — models.py lines 70-76 only assign `thread_level`
when a parent is present and have no else-branch resetting it to 0, so the
claimed invariant "parent null → thread_level = 0" fails. -/
theorem c6_counterexample :
    (Message.save uname0 0 c6_db c6_inst).toOption.map
        (fun r => (Message.objects_get r.1.messages 1).map
          (fun m => (m.parent_message, m.thread_level)))
      = some (some (none, 5)) := by
  decide

/-- C6 amended: after a successful save, the persisted row satisfies the
parent-derived invariants — `thread_level = parent.thread_level + 1` and
the receiver forced to the parent's other participant — whenever a parent
is set; when no parent is set, the save leaves `thread_level` (and the
receiver) at the instance's prior value instead of forcing it to 0. -/
theorem c6_thread_fields_spec (uname : Nat → String) (now : Nat) (db : DB)
    (inst : Message) (dbr : DB) (saved : Message)
    (hok : Message.save uname now db inst = .ok (dbr, saved)) :
    (∀ p parent, inst.parent_message = some p →
        Message.objects_get db.messages p = some parent →
        saved.thread_level = parent.thread_level + 1 ∧
        saved.parent_message = some p ∧
        saved.receiver = (if parent.sender == inst.sender
                          then parent.receiver else parent.sender)) ∧
    (inst.parent_message = none →
        saved.thread_level = inst.thread_level ∧
        saved.receiver = inst.receiver) := by
  rw [Message.save_eq] at hok
  cases ha : adjust_thread db inst with
  | error e => rw [ha] at hok; exact Except.noConfusion hok
  | ok adjusted =>
    rw [ha] at hok
    dsimp only at hok
    cases ht : track_edit now db adjusted with
    | error e => rw [ht] at hok; exact Except.noConfusion hok
    | ok checked =>
      rw [ht] at hok
      dsimp only at hok
      injection hok with hok
      have hbf := base_save_snd_fields uname now db checked
      rw [hok] at hbf
      obtain ⟨hb1, hb2, hb3, _, _, _⟩ := hbf
      obtain ⟨ht1, ht2, ht3, _, _, _⟩ :=
        track_edit_ok_fields now db adjusted checked ht
      constructor
      · intro p parent hp hg
        rw [adjust_thread_some db inst parent p hp hg] at ha
        injection ha with ha
        refine ⟨?_, ?_, ?_⟩
        · rw [hb1, ht1, ← ha]
        · rw [hb3, ht3, ← ha]; exact hp
        · rw [hb2, ht2, ← ha]
      · intro hn
        rw [adjust_thread_none db inst hn] at ha
        injection ha with ha
        exact ⟨by rw [hb1, ht1, ← ha], by rw [hb2, ht2, ← ha]⟩

/-- Concrete reply-creation scenario used to witness `c6_thread_fields_spec`. -/
def c6w_parent : Message :=
  { pk := some 1, sender := 1, receiver := 2, content := "Hi",
    timestamp := 0, edited := false, edited_at := none,
    parent_message := none, thread_level := 0, reply_count := 0 }

def c6w_db : DB :=
  { messages := [c6w_parent], history := [], notifications := [],
    nextId := 2 }

def c6w_reply : Message :=
  { pk := none, sender := 2, receiver := 1, content := "Hello",
    timestamp := 1, edited := false, edited_at := none,
    parent_message := some 1, thread_level := 0, reply_count := 0 }

/-- The row `Message.save` persists in the scenario above. -/
def c6w_saved : Message :=
  { pk := some 2, sender := 2, receiver := 1, content := "Hello",
    timestamp := 1, edited := false, edited_at := none,
    parent_message := some 1, thread_level := 1, reply_count := 0 }

/-- The notification the save above inserts for user 1. -/
def c6w_notif : Notification :=
  { user := 1, message := 2, title := "New message from alice",
    content := "You have received a new message: Hello...",
    is_read := false, created_at := 5 }

/-- The database state after the save in the scenario above. -/
def c6w_dbr : DB :=
  { messages := [c6w_parent, c6w_saved], history := [],
    notifications := [c6w_notif], nextId := 3 }

/-- Witness for `c6_thread_fields_spec` at a concrete reply creation. -/
theorem c6_thread_fields_witness :
    c6w_saved.thread_level = c6w_parent.thread_level + 1 ∧
    c6w_saved.parent_message = some 1 ∧
    c6w_saved.receiver = (if c6w_parent.sender == c6w_reply.sender
                          then c6w_parent.receiver else c6w_parent.sender) := by
  have hok : Message.save uname0 5 c6w_db c6w_reply =
      .ok (c6w_dbr, c6w_saved) := by rfl
  exact (c6_thread_fields_spec uname0 5 c6w_db c6w_reply c6w_dbr c6w_saved
    hok).1 1 c6w_parent rfl rfl

/-! ### Claim C7: edit of a vanished row -/

/-- An instance claiming primary key 5 whose underlying row has vanished. -/
def c7_inst : Message :=
  { pk := some 5, sender := 1, receiver := 2, content := "new",
    timestamp := 0, edited := false, edited_at := none,
    parent_message := none, thread_level := 0, reply_count := 0 }

def c7_db : DB :=
  { messages := [], history := [], notifications := [], nextId := 1 }

/-- C7 counterexample: when the row vanished between check and read, the
edit does NOT complete — `Message.save` raises `DoesNotExist` from the
unguarded `Message.objects.get(pk=self.pk)` of models.py line 80, which
runs before the guarded read of the `pre_save` handler ever fires. -/
theorem c7_counterexample :
    Message.save uname0 3 c7_db c7_inst = .error .doesNotExist := by
  rfl

/-- C7 amended: when the pre-image read finds no row (the row vanished
between check and read), the `pre_save` history logger itself skips
silently, appending no history row; but the edit does NOT complete:
`Message.save` always fails — with `DoesNotExist` from the unguarded
edit-tracking read of models.py line 80 whenever the parent reference (if
any) still resolves, and already with NotFound at the parent lookup when
the parent row is gone too. -/
theorem c7_vanished_row_spec (uname : Nat → String) (now : Nat) (db : DB)
    (inst : Message) (i : Nat) (hpk : inst.pk = some i)
    (hgone : Message.objects_get db.messages i = none) :
    log_message_edit now db inst = db ∧
    (∃ e, Message.save uname now db inst = .error e) ∧
    ((∃ a, adjust_thread db inst = .ok a) →
      Message.save uname now db inst = .error .doesNotExist) := by
  have htrack : ∀ adjusted, adjust_thread db inst = .ok adjusted →
      Message.save uname now db inst = .error .doesNotExist := by
    intro adjusted ha
    have hapki : adjusted.pk = some i := by
      rw [(adjust_thread_ok_fields db inst adjusted ha).1, hpk]
    rw [Message.save_eq, ha]
    dsimp only
    have ht : track_edit now db adjusted = .error .doesNotExist := by
      unfold track_edit
      rw [hapki]
      dsimp only
      rw [hgone]
    rw [ht]
  refine ⟨by simp [log_message_edit, hpk, hgone], ?_, ?_⟩
  · cases ha : adjust_thread db inst with
    | error e =>
      refine ⟨e, ?_⟩
      rw [Message.save_eq, ha]
    | ok adjusted => exact ⟨.doesNotExist, htrack adjusted ha⟩
  · intro hoka
    obtain ⟨a, ha⟩ := hoka
    exact htrack a ha

/-- Witness for `c7_vanished_row_spec` at the concrete vanished-row
input (whose parent reference trivially resolves). -/
theorem c7_vanished_row_witness :
    log_message_edit 3 c7_db c7_inst = c7_db ∧
    (∃ e, Message.save uname0 3 c7_db c7_inst = .error e) ∧
    ((∃ a, adjust_thread c7_db c7_inst = .ok a) →
      Message.save uname0 3 c7_db c7_inst = .error .doesNotExist) :=
  c7_vanished_row_spec uname0 3 c7_db c7_inst 5 rfl rfl

/-! ### Claim C2: edit-history recording -/

/-- On the update path (`pk` present and the row found), `super().save()`
leaves `history` and `notifications` exactly as the `pre_save` handler
left them: the update itself writes only the message row, and `post_save`
fires with `created = False`, so no notification is added. -/
theorem base_save_fst_update (uname : Nat → String) (now : Nat) (db : DB)
    (c orig : Message) (i : Nat) (hpk : c.pk = some i)
    (hfound : Message.objects_get db.messages i = some orig) :
    (base_save uname now db c).1.history =
      (log_message_edit now db c).history ∧
    (base_save uname now db c).1.notifications =
      (log_message_edit now db c).notifications := by
  unfold base_save
  rw [hpk]
  dsimp only
  rw [log_message_edit_messages, hfound]
  dsimp only
  simp [create_message_notification]

/-- The `pre_save` handler on a content-changing edit appends exactly the
one history row carrying the pre-edit content and the next version. -/
theorem log_message_edit_changed (now : Nat) (db : DB) (c orig : Message)
    (i : Nat) (hpk : c.pk = some i)
    (hfound : Message.objects_get db.messages i = some orig)
    (hne : (orig.content != c.content) = true) :
    log_message_edit now db c = { db with history := db.history ++
      [{ message := i, old_content := orig.content, edited_by := c.sender,
         edited_at := now, version := next_version db i }] } := by
  unfold log_message_edit
  rw [hpk]
  dsimp only
  rw [hfound]
  dsimp only
  rw [hne]
  simp

/-- The `pre_save` handler on a content-preserving save appends nothing. -/
theorem log_message_edit_unchanged (now : Nat) (db : DB) (c orig : Message)
    (i : Nat) (hpk : c.pk = some i)
    (hfound : Message.objects_get db.messages i = some orig)
    (heq : (orig.content != c.content) = false) :
    log_message_edit now db c = db := by
  unfold log_message_edit
  rw [hpk]
  dsimp only
  rw [hfound]
  dsimp only
  rw [heq]
  simp

/-- C2: any successful save of an existing message (reply or not) whose
content differs from the stored content appends exactly one history row
whose `old_content` is the pre-edit content and whose `version` is
`next_version` (max existing version + 1, or 1 with no history), written
by the `pre_save` handler against the pre-update table (so the insert
precedes the update); a save with identical content appends zero history
rows and leaves `edited` at the instance's prior value. -/
theorem c2_edit_history_spec (uname : Nat → String) (now : Nat) (db : DB)
    (inst original : Message) (i : Nat) (dbr : DB) (saved : Message)
    (hpk : inst.pk = some i)
    (hfound : Message.objects_get db.messages i = some original)
    (hok : Message.save uname now db inst = .ok (dbr, saved)) :
    (original.content ≠ inst.content →
      dbr.history = db.history ++
        [{ message := i, old_content := original.content,
           edited_by := inst.sender, edited_at := now,
           version := next_version db i }] ∧
      saved.edited = true) ∧
    (original.content = inst.content →
      dbr.history = db.history ∧ saved.edited = inst.edited) := by
  rw [Message.save_eq] at hok
  cases ha : adjust_thread db inst with
  | error e => rw [ha] at hok; exact Except.noConfusion hok
  | ok adjusted =>
    rw [ha] at hok
    dsimp only at hok
    obtain ⟨hapk, hasend, hacont, haed⟩ :=
      adjust_thread_ok_fields db inst adjusted ha
    have hapki : adjusted.pk = some i := by rw [hapk, hpk]
    cases ht : track_edit now db adjusted with
    | error e => rw [ht] at hok; exact Except.noConfusion hok
    | ok checked =>
      rw [ht] at hok
      dsimp only at hok
      injection hok with hok
      have hdbr : dbr = (base_save uname now db checked).1 := by rw [hok]
      have hsaved : saved = (base_save uname now db checked).2 := by
        rw [hok]
      constructor
      · intro hne
        have hbne : (original.content != adjusted.content) = true := by
          rw [hacont]
          simpa [bne_iff_ne] using hne
        have ht2 : track_edit now db adjusted =
            .ok { adjusted with edited := true, edited_at := some now } := by
          unfold track_edit
          rw [hapki]
          dsimp only
          rw [hfound]
          dsimp only
          rw [hbne]
          simp
        rw [ht2] at ht
        injection ht with ht
        subst ht
        constructor
        · rw [hdbr]
          obtain ⟨hb1, _⟩ := base_save_fst_update uname now db
            { adjusted with edited := true, edited_at := some now }
            original i hapki hfound
          rw [hb1, log_message_edit_changed now db
            { adjusted with edited := true, edited_at := some now }
            original i hapki hfound hbne]
          dsimp only
          rw [hasend]
        · have he := (base_save_snd_fields uname now db
            { adjusted with edited := true, edited_at := some now }
            ).2.2.2.2.2
          rw [hsaved, he]
      · intro heq
        have hbeq : (original.content != adjusted.content) = false := by
          rw [hacont]
          simp [bne, heq]
        have ht2 : track_edit now db adjusted = .ok adjusted := by
          unfold track_edit
          rw [hapki]
          dsimp only
          rw [hfound]
          dsimp only
          rw [hbeq]
          simp
        rw [ht2] at ht
        injection ht with ht
        subst ht
        constructor
        · rw [hdbr]
          obtain ⟨hb1, _⟩ := base_save_fst_update uname now db adjusted
            original i hapki hfound
          rw [hb1, log_message_edit_unchanged now db adjusted original i
            hapki hfound hbeq]
        · rw [hsaved,
            (base_save_snd_fields uname now db adjusted).2.2.2.2.2, haed]

/-- Root message of the thread used to witness C2 on a reply edit. -/
def c2w_root : Message :=
  { pk := some 1, sender := 1, receiver := 2, content := "root",
    timestamp := 0, edited := false, edited_at := none,
    parent_message := none, thread_level := 0, reply_count := 0 }

/-- Stored reply "a" (a message WITH a parent) about to be edited. -/
def c2w_orig : Message :=
  { pk := some 2, sender := 2, receiver := 1, content := "a",
    timestamp := 1, edited := false, edited_at := none,
    parent_message := some 1, thread_level := 1, reply_count := 0 }

def c2w_db : DB :=
  { messages := [c2w_root, c2w_orig], history := [], notifications := [],
    nextId := 3 }

def c2w_inst : Message :=
  { pk := some 2, sender := 2, receiver := 1, content := "b",
    timestamp := 1, edited := false, edited_at := none,
    parent_message := some 1, thread_level := 1, reply_count := 0 }

/-- The reply row as persisted by the edit. -/
def c2w_saved : Message :=
  { pk := some 2, sender := 2, receiver := 1, content := "b",
    timestamp := 1, edited := true, edited_at := some 7,
    parent_message := some 1, thread_level := 1, reply_count := 0 }

/-- The database state the edit commits. -/
def c2w_dbr : DB :=
  { messages := [c2w_root, c2w_saved],
    history := [{ message := 2, old_content := "a", edited_by := 2,
                  edited_at := 7, version := 1 }],
    notifications := [], nextId := 3 }

/-- Witness for `c2_edit_history_spec` at a concrete content-changing
edit of a reply (a message with a parent set). -/
theorem c2_edit_history_witness :
    c2w_dbr.history = c2w_db.history ++
      [{ message := 2, old_content := "a", edited_by := 2,
         edited_at := 7, version := next_version c2w_db 2 }] ∧
    c2w_saved.edited = true := by
  have hok : Message.save uname0 7 c2w_db c2w_inst =
      .ok (c2w_dbr, c2w_saved) := by rfl
  exact (c2_edit_history_spec uname0 7 c2w_db c2w_inst c2w_orig 2 c2w_dbr
    c2w_saved rfl rfl hok).1 (by decide)

/-! ### Claim C4: notification emission -/

/-- If the edit-tracking read succeeded for an existing `pk`, the row was
present in the pre-save table. -/
theorem track_edit_ok_found (now : Nat) (db : DB) (a b : Message) (i : Nat)
    (h : track_edit now db a = .ok b) (hpk : a.pk = some i) :
    (Message.objects_get db.messages i).isSome := by
  unfold track_edit at h
  rw [hpk] at h
  dsimp only at h
  cases hg : Message.objects_get db.messages i with
  | none => rw [hg] at h; exact Except.noConfusion h
  | some o => simp

/-- On an update of an existing row, `super().save()` adds no
notification (`created = False`). -/
theorem base_save_notifications_update (uname : Nat → String) (now : Nat)
    (db : DB) (c orig : Message) (i : Nat) (hpk : c.pk = some i)
    (hfound : Message.objects_get db.messages i = some orig) :
    (base_save uname now db c).1.notifications = db.notifications := by
  rw [(base_save_fst_update uname now db c orig i hpk hfound).2,
    log_message_edit_notifications]

/-- On an insert, the persisted row is the instance with the fresh key. -/
theorem base_save_snd_new (uname : Nat → String) (now : Nat) (db : DB)
    (c : Message) (hpk : c.pk = none) :
    (base_save uname now db c).2 =
      { c with pk := some (log_message_edit now db c).nextId } := by
  unfold base_save
  rw [hpk]

/-- On an insert, `post_save` fires with `created = True`: exactly one
notification is appended when sender and receiver differ, none otherwise. -/
theorem base_save_notifications_new (uname : Nat → String) (now : Nat)
    (db : DB) (c : Message) (hpk : c.pk = none) :
    (base_save uname now db c).1.notifications =
      (if c.sender != c.receiver
       then db.notifications ++
         [mk_message_notification uname now
           { c with pk := some (log_message_edit now db c).nextId }]
       else db.notifications) := by
  unfold base_save
  rw [hpk]
  dsimp only
  unfold create_message_notification
  rw [Bool.true_and]
  split
  · dsimp only
    rw [log_message_edit_notifications]
  · rw [log_message_edit_notifications]

/-- C4: on any successful save, the notifications table changes exactly as
the claim describes — an edit (`pk` present) or a self-message adds
nothing, and a creation with distinct sender/receiver appends exactly the
one derived notification addressed to the saved row's receiver. -/
theorem c4_notification_spec (uname : Nat → String) (now : Nat) (db : DB)
    (inst : Message) (dbr : DB) (saved : Message)
    (hok : Message.save uname now db inst = .ok (dbr, saved)) :
    (saved.sender = saved.receiver →
      dbr.notifications = db.notifications) ∧
    (inst.pk.isSome → dbr.notifications = db.notifications) ∧
    (inst.pk = none → saved.sender ≠ saved.receiver →
      dbr.notifications = db.notifications ++
        [mk_message_notification uname now saved]) := by
  rw [Message.save_eq] at hok
  cases ha : adjust_thread db inst with
  | error e => rw [ha] at hok; exact Except.noConfusion hok
  | ok adjusted =>
    rw [ha] at hok
    dsimp only at hok
    cases ht : track_edit now db adjusted with
    | error e => rw [ht] at hok; exact Except.noConfusion hok
    | ok checked =>
      rw [ht] at hok
      dsimp only at hok
      injection hok with hok
      obtain ⟨hapk, _, _, _⟩ := adjust_thread_ok_fields db inst adjusted ha
      obtain ⟨_, _, _, _, _, htpk⟩ :=
        track_edit_ok_fields now db adjusted checked ht
      have hdbr : dbr = (base_save uname now db checked).1 := by rw [hok]
      have hsaved : saved = (base_save uname now db checked).2 := by
        rw [hok]
      have hsend : saved.sender = checked.sender := by
        rw [hsaved]
        exact (base_save_snd_fields uname now db checked).2.2.2.1
      have hrecv : saved.receiver = checked.receiver := by
        rw [hsaved]
        exact (base_save_snd_fields uname now db checked).2.1
      refine ⟨?_, ?_, ?_⟩
      · intro hss
        cases hcpk : checked.pk with
        | some i =>
          have hfound := track_edit_ok_found now db adjusted checked i ht
            (by rw [← htpk, hcpk])
          obtain ⟨orig, horig⟩ := Option.isSome_iff_exists.mp hfound
          rw [hdbr, base_save_notifications_update uname now db checked
            orig i hcpk horig]
        | none =>
          rw [hdbr, base_save_notifications_new uname now db checked hcpk]
          have hcc : checked.sender = checked.receiver := by
            rw [← hsend, ← hrecv]; exact hss
          simp [hcc]
      · intro hip
        obtain ⟨i, hi⟩ := Option.isSome_iff_exists.mp hip
        have hfound := track_edit_ok_found now db adjusted checked i ht
          (by rw [hapk, hi])
        obtain ⟨orig, horig⟩ := Option.isSome_iff_exists.mp hfound
        have hcpk : checked.pk = some i := by rw [htpk, hapk, hi]
        rw [hdbr, base_save_notifications_update uname now db checked
          orig i hcpk horig]
      · intro hnone hneq
        have hcpk : checked.pk = none := by rw [htpk, hapk, hnone]
        have hcc : checked.sender ≠ checked.receiver := by
          rw [← hsend, ← hrecv]; exact hneq
        rw [hdbr, base_save_notifications_new uname now db checked hcpk,
          if_pos (by simpa [bne_iff_ne] using hcc), hsaved,
          base_save_snd_new uname now db checked hcpk]

/-- An unsaved message from user 1 to user 2 used to witness C4. -/
def c4w_inst : Message :=
  { pk := none, sender := 1, receiver := 2, content := "Yo", timestamp := 0,
    edited := false, edited_at := none, parent_message := none,
    thread_level := 0, reply_count := 0 }

def c4w_db : DB :=
  { messages := [], history := [], notifications := [], nextId := 1 }

def c4w_saved : Message :=
  { pk := some 1, sender := 1, receiver := 2, content := "Yo",
    timestamp := 0, edited := false, edited_at := none,
    parent_message := none, thread_level := 0, reply_count := 0 }

def c4w_notif : Notification :=
  { user := 2, message := 1, title := "New message from alice",
    content := "You have received a new message: Yo...",
    is_read := false, created_at := 4 }

def c4w_dbr : DB :=
  { messages := [c4w_saved], history := [],
    notifications := [c4w_notif], nextId := 2 }

/-- Witness for `c4_notification_spec` at a concrete creation with
distinct sender and receiver. -/
theorem c4_notification_witness :
    c4w_dbr.notifications = c4w_db.notifications ++
      [mk_message_notification uname0 4 c4w_saved] := by
  have hok : Message.save uname0 4 c4w_db c4w_inst =
      .ok (c4w_dbr, c4w_saved) := by rfl
  exact (c4_notification_spec uname0 4 c4w_db c4w_inst c4w_dbr c4w_saved
    hok).2.2 rfl (by decide)

/-! ### Claim C3: atomicity of the edit + history write set -/

/-- A primitive persistent row write issued during a message edit. -/
inductive DBWrite where
  | insertHistory : MessageHistory → DBWrite
  | updateMessage : Nat → Message → DBWrite
deriving Repr, DecidableEq

/-- Apply one primitive write to the database. -/
def applyW (db : DB) : DBWrite → DB
  | .insertHistory h => { db with history := db.history ++ [h] }
  | .updateMessage i m =>
    { db with
      messages := db.messages.map (fun x => if x.pk == some i then m else x) }

/-- The sequence of persistent row writes `Message.save` issues, in
program order, for an update of an existing parentless row: first the
`pre_save` handler's history insert (when content changes), then the
UPDATE of the message row.  models.py wraps these in no
`transaction.atomic` block, so each lands individually. -/
def message_edit_writes (now : Nat) (db : DB) (inst : Message) :
    List DBWrite :=
  match inst.pk with
  | none => []
  | some i =>
    match Message.objects_get db.messages i with
    | none => []
    | some original =>
      (if original.content != inst.content then
        [DBWrite.insertHistory
          { message := i, old_content := original.content,
            edited_by := inst.sender, edited_at := now,
            version := next_version db i }]
       else []) ++
      [DBWrite.updateMessage i
        (if original.content != inst.content then
          { inst with edited := true, edited_at := some now }
         else inst)]

/-- Concrete edit scenario for C3: message 1 edited from "v1" to "v2". -/
def c3_orig : Message :=
  { pk := some 1, sender := 1, receiver := 2, content := "v1",
    timestamp := 0, edited := false, edited_at := none,
    parent_message := none, thread_level := 0, reply_count := 0 }

def c3_db : DB :=
  { messages := [c3_orig], history := [], notifications := [], nextId := 2 }

def c3_inst : Message :=
  { pk := some 1, sender := 1, receiver := 2, content := "v2",
    timestamp := 0, edited := false, edited_at := none,
    parent_message := none, thread_level := 0, reply_count := 0 }

/-- The observable database state if execution stops after the first of
the two writes (the history insert) — the state a crash between the two
unwrapped statements leaves behind. -/
def c3_mid : DB :=
  ((message_edit_writes 9 c3_db c3_inst).take 1).foldl applyW c3_db

/-- C3: the edit write set is not atomic.  Applying the full write set
reproduces exactly the state `Message.save` commits (proved in general by
`message_edit_writes_agree` below), yet the state after only the first
write is a genuine third state — the history row is already persisted
while message 1 still reads "v1" — observable after a failure because
models.py lines 68-90 and signals.py lines 22-43 wrap the two writes in
no transaction (only the account-deletion view, views.py lines 240-246,
opens a `transaction.atomic` block). -/
theorem c3_edit_not_atomic :
    (Message.save uname0 9 c3_db c3_inst).toOption.map Prod.fst =
      some ((message_edit_writes 9 c3_db c3_inst).foldl applyW c3_db) ∧
    c3_mid ≠ c3_db ∧
    (Message.save uname0 9 c3_db c3_inst).toOption.map Prod.fst ≠
      some c3_mid ∧
    c3_mid.history ≠ c3_db.history ∧
    (Message.objects_get c3_mid.messages 1).map Message.content =
      some "v1" := by
  decide

/-- The write list on a content-changing update: the history insert
followed by the update carrying the flipped edit flags. -/
theorem message_edit_writes_changed (now : Nat) (db : DB)
    (inst orig : Message) (i : Nat) (hpk : inst.pk = some i)
    (hfound : Message.objects_get db.messages i = some orig)
    (hbne : (orig.content != inst.content) = true) :
    message_edit_writes now db inst =
      [DBWrite.insertHistory
        { message := i, old_content := orig.content,
          edited_by := inst.sender, edited_at := now,
          version := next_version db i },
       DBWrite.updateMessage i
        { inst with edited := true, edited_at := some now }] := by
  unfold message_edit_writes
  rw [hpk]
  dsimp only
  rw [hfound]
  dsimp only
  rw [hbne]
  simp

/-- The write list on a content-preserving update: just the row update. -/
theorem message_edit_writes_unchanged (now : Nat) (db : DB)
    (inst orig : Message) (i : Nat) (hpk : inst.pk = some i)
    (hfound : Message.objects_get db.messages i = some orig)
    (hbeq : (orig.content != inst.content) = false) :
    message_edit_writes now db inst = [DBWrite.updateMessage i inst] := by
  unfold message_edit_writes
  rw [hpk]
  dsimp only
  rw [hfound]
  dsimp only
  rw [hbeq]
  simp

/-- On an update of an existing row, the database `super().save()`
commits is the pre-save handler's state with the one row replaced. -/
theorem base_save_fst_update_eq (uname : Nat → String) (now : Nat)
    (db : DB) (c orig : Message) (i : Nat) (hpk : c.pk = some i)
    (hfound : Message.objects_get db.messages i = some orig) :
    (base_save uname now db c).1 =
      { log_message_edit now db c with
        messages :=
          db.messages.map (fun x => if x.pk == some i then c else x) } := by
  unfold base_save
  rw [hpk]
  dsimp only
  rw [log_message_edit_messages, hfound]
  dsimp only
  simp [create_message_notification]

/-- The write list is a faithful decomposition of the save: for ANY
parentless update of an existing row, folding the writes over the initial
database reproduces exactly the state `Message.save` commits — so the
intermediate states of the fold are precisely the states a failure
between the unwrapped statements can leave behind. -/
theorem message_edit_writes_agree (uname : Nat → String) (now : Nat)
    (db : DB) (inst original : Message) (i : Nat) (dbr : DB)
    (saved : Message) (hpk : inst.pk = some i)
    (hfound : Message.objects_get db.messages i = some original)
    (hpar : inst.parent_message = none)
    (hok : Message.save uname now db inst = .ok (dbr, saved)) :
    (message_edit_writes now db inst).foldl applyW db = dbr := by
  rw [Message.save_eq, adjust_thread_none db inst hpar] at hok
  dsimp only at hok
  by_cases hc : (original.content != inst.content) = true
  · have ht : track_edit now db inst =
        .ok { inst with edited := true, edited_at := some now } := by
      unfold track_edit
      rw [hpk]
      dsimp only
      rw [hfound]
      dsimp only
      rw [hc]
      simp
    rw [ht] at hok
    dsimp only at hok
    injection hok with hok
    have hdbr : dbr = (base_save uname now db
        { inst with edited := true, edited_at := some now }).1 := by
      rw [hok]
    rw [hdbr,
      base_save_fst_update_eq uname now db
        { inst with edited := true, edited_at := some now } original i hpk
        hfound,
      log_message_edit_changed now db
        { inst with edited := true, edited_at := some now } original i hpk
        hfound hc,
      message_edit_writes_changed now db inst original i hpk hfound hc]
    simp [applyW]
  · have hcf : (original.content != inst.content) = false := by
      simpa using hc
    have ht : track_edit now db inst = .ok inst := by
      unfold track_edit
      rw [hpk]
      dsimp only
      rw [hfound]
      dsimp only
      rw [hcf]
      simp
    rw [ht] at hok
    dsimp only at hok
    injection hok with hok
    have hdbr : dbr = (base_save uname now db inst).1 := by rw [hok]
    rw [hdbr,
      base_save_fst_update_eq uname now db inst original i hpk hfound,
      log_message_edit_unchanged now db inst original i hpk hfound hcf,
      message_edit_writes_unchanged now db inst original i hpk hfound hcf]
    simp [applyW]

/-! ### Claim C5: cascade cleanup on account deletion -/

/-- One expansion round of Django's delete collector: a message is doomed
if it already was, or if its parent is a doomed persisted row
(`parent_message` has `on_delete=CASCADE`). -/
def doomed_step (msgs : List Message) (f : Message → Bool) :
    Message → Bool :=
  fun m => f m ||
    (match m.parent_message with
     | some p => msgs.any (fun d => f d && d.pk == some p)
     | none => false)

/-- The collector iterated `n` rounds from a seed predicate. -/
def doomed_fun (msgs : List Message) (seed : Message → Bool) :
    Nat → Message → Bool
  | 0 => seed
  | n + 1 => doomed_step msgs (doomed_fun msgs seed n)

/-- `Message.objects.filter(seed).delete()`: delete every seed-matching
message together with the rows Django's CASCADE rules pull in — reply
subtrees (parent FK), and the deleted messages' history rows and
notifications (message FKs). -/
def delete_messages (db : DB) (seed : Message → Bool) : DB :=
  let doomed := doomed_fun db.messages seed db.messages.length
  let deletedIds := (db.messages.filter doomed).filterMap Message.pk
  { db with
    messages := db.messages.filter (fun m => !(doomed m)),
    history :=
      db.history.filter (fun h => !(deletedIds.contains h.message)),
    notifications :=
      db.notifications.filter (fun n => !(deletedIds.contains n.message)) }

/-- The `post_delete` handler `cleanup_user_data`
(signals.py lines 46-82): delete messages the user sent, then messages
the user received, then any remaining notifications for the user, then
any remaining history rows the user edited. -/
def cleanup_user_data (db : DB) (u : Nat) : DB :=
  let db1 := delete_messages db (fun m => m.sender == u)
  let db2 := delete_messages db1 (fun m => m.receiver == u)
  let db3 := { db2 with
    notifications := db2.notifications.filter (fun n => !(n.user == u)) }
  { db3 with
    history := db3.history.filter (fun h => !(h.edited_by == u)) }

/-- Django's native CASCADE for `user.delete()`: the user's sent and
received messages (with their cascades), the user's notifications, and
the history rows the user edited, all carry `on_delete=CASCADE`. -/
def user_delete_cascade (db : DB) (u : Nat) : DB :=
  let db1 := delete_messages db (fun m => m.sender == u || m.receiver == u)
  let db2 := { db1 with
    notifications := db1.notifications.filter (fun n => !(n.user == u)) }
  { db2 with
    history := db2.history.filter (fun h => !(h.edited_by == u)) }

/-- `delete_user` (views.py lines 226-254): `user.delete()` performs the
native cascade and then fires the `post_delete` sweep. -/
def delete_user_account (db : DB) (u : Nat) : DB :=
  cleanup_user_data (user_delete_cascade db u) u

theorem doomed_fun_of_seed (msgs : List Message) (seed : Message → Bool)
    (n : Nat) (m : Message) (h : seed m = true) :
    doomed_fun msgs seed n m = true := by
  induction n with
  | zero => exact h
  | succ n ih => simp [doomed_fun, doomed_step, ih]

/-- Rows surviving `delete_messages` were already present and do not
match the seed predicate. -/
theorem mem_delete_messages (db : DB) (seed : Message → Bool)
    (m : Message) (h : m ∈ (delete_messages db seed).messages) :
    m ∈ db.messages ∧ seed m = false := by
  unfold delete_messages at h
  dsimp only at h
  rw [List.mem_filter] at h
  refine ⟨h.1, ?_⟩
  cases hsm : seed m with
  | false => rfl
  | true =>
    have := doomed_fun_of_seed db.messages seed db.messages.length m hsm
    rw [this] at h
    simp at h

/-- Every message surviving the sweep has the user neither as sender nor
as receiver; every surviving notification is not for the user; every
surviving history row was not edited by the user. -/
theorem cleanup_user_data_complete (db : DB) (u : Nat) :
    (∀ m ∈ (cleanup_user_data db u).messages,
      (m.sender == u) = false ∧ (m.receiver == u) = false) ∧
    (∀ n ∈ (cleanup_user_data db u).notifications,
      (n.user == u) = false) ∧
    (∀ h ∈ (cleanup_user_data db u).history,
      (h.edited_by == u) = false) := by
  unfold cleanup_user_data
  dsimp only
  refine ⟨?_, ?_, ?_⟩
  · intro m hm
    have h2 := mem_delete_messages _ _ m hm
    have h1 := mem_delete_messages _ _ m h2.1
    exact ⟨h1.2, h2.2⟩
  · intro n hn
    rw [List.mem_filter] at hn
    simpa using hn.2
  · intro h hh
    rw [List.mem_filter] at hh
    simpa using hh.2

/-- C5: after a user account is deleted (native cascade followed by the
`post_delete` sweep), zero message rows remain with the user as sender or
receiver, zero notifications remain addressed to the user, and zero
history rows remain edited by the user. -/
theorem c5_cleanup_complete (db : DB) (u : Nat) :
    ((delete_user_account db u).messages.filter
        (fun m => m.sender == u || m.receiver == u)).length = 0 ∧
    ((delete_user_account db u).notifications.filter
        (fun n => n.user == u)).length = 0 ∧
    ((delete_user_account db u).history.filter
        (fun h => h.edited_by == u)).length = 0 := by
  obtain ⟨hm, hn, hh⟩ :=
    cleanup_user_data_complete (user_delete_cascade db u) u
  unfold delete_user_account
  refine ⟨?_, ?_, ?_⟩
  · rw [List.length_eq_zero, List.filter_eq_nil_iff]
    intro m hmem
    obtain ⟨h1, h2⟩ := hm m hmem
    simp [h1, h2]
  · rw [List.length_eq_zero, List.filter_eq_nil_iff]
    intro n hmem
    simp [hn n hmem]
  · rw [List.length_eq_zero, List.filter_eq_nil_iff]
    intro h hmem
    simp [hh h hmem]

/-! ### Claim C8: lazy pagination -/

/-- `paginate_users(page_size, offset)`
(2-lazy_paginate.py lines 11-49): one page of the table, i.e.
`SELECT * FROM user_data LIMIT page_size OFFSET offset`. -/
def paginate_users {α : Type} (rows : List α) (page_size offset : Nat) :
    List α :=
  (rows.drop offset).take page_size

/-- A non-empty fetched page means the page size is positive and the
offset is still inside the table. -/
theorem paginate_users_ne_nil {α : Type} (rows : List α) (k off : Nat)
    (h : paginate_users rows k off ≠ []) :
    k ≠ 0 ∧ off < rows.length := by
  unfold paginate_users at h
  constructor
  · intro hz
    subst hz
    simp at h
  · by_contra hle
    push_neg at hle
    apply h
    rw [List.drop_eq_nil_of_le hle]
    simp

/-- `lazy_paginate(page_size)` (2-lazy_paginate.py lines 52-78), from a
given starting offset: fetch a page; stop the first time the fetch is
empty (`if not page: break`), otherwise yield it and advance the offset by
the page size.  The definition's totality is the termination claim: each
recursive step strictly shrinks the remaining suffix of the table. -/
def lazy_paginate_from {α : Type} (rows : List α) (page_size offset : Nat) :
    List (List α) :=
  match _hp : paginate_users rows page_size offset with
  | [] => []
  | a :: tl =>
    (a :: tl) :: lazy_paginate_from rows page_size (offset + page_size)
termination_by rows.length - offset
decreasing_by
  have hp2 := paginate_users_ne_nil rows page_size offset (by rw [_hp]; simp)
  omega

/-- The generator starts from offset 0. -/
def lazy_paginate {α : Type} (rows : List α) (page_size : Nat) :
    List (List α) :=
  lazy_paginate_from rows page_size 0

theorem lazy_paginate_from_empty {α : Type} (rows : List α) (k off : Nat)
    (h : paginate_users rows k off = []) :
    lazy_paginate_from rows k off = [] := by
  rw [lazy_paginate_from]
  split <;> simp_all

theorem lazy_paginate_from_cons {α : Type} (rows : List α) (k off : Nat)
    (h : paginate_users rows k off ≠ []) :
    lazy_paginate_from rows k off =
      paginate_users rows k off :: lazy_paginate_from rows k (off + k) := by
  rw [lazy_paginate_from]
  split <;> simp_all

/-- Concatenating the yielded pages recovers the table suffix from the
starting offset: pages come in offset order and cover everything. -/
theorem lazy_paginate_from_flatten {α : Type} (rows : List α) (k : Nat)
    (hk : 0 < k) :
    ∀ off, (lazy_paginate_from rows k off).flatten = rows.drop off := by
  suffices H : ∀ n off, rows.length - off ≤ n →
      (lazy_paginate_from rows k off).flatten = rows.drop off from
    fun off => H (rows.length - off) off le_rfl
  intro n
  induction n with
  | zero =>
    intro off hoff
    have hnil : rows.drop off = [] := List.drop_eq_nil_of_le (by omega)
    have hpage : paginate_users rows k off = [] := by
      unfold paginate_users
      rw [hnil]
      simp
    rw [lazy_paginate_from_empty rows k off hpage, hnil]
    rfl
  | succ n ih =>
    intro off hoff
    by_cases hpage : paginate_users rows k off = []
    · have hnil : rows.drop off = [] := by
        rcases List.take_eq_nil_iff.mp hpage with h | h
        · omega
        · exact h
      rw [lazy_paginate_from_empty rows k off hpage, hnil]
      rfl
    · have hlt := (paginate_users_ne_nil rows k off hpage).2
      rw [lazy_paginate_from_cons rows k off hpage, List.flatten_cons,
        ih (off + k) (by omega)]
      unfold paginate_users
      rw [← List.drop_drop, List.take_append_drop]

/-- The number of yielded pages is the ceiling of the remaining row count
divided by the page size. -/
theorem lazy_paginate_from_length {α : Type} (rows : List α) (k : Nat)
    (hk : 0 < k) :
    ∀ off, (lazy_paginate_from rows k off).length =
      (rows.length - off + k - 1) / k := by
  suffices H : ∀ n off, rows.length - off ≤ n →
      (lazy_paginate_from rows k off).length =
        (rows.length - off + k - 1) / k from
    fun off => H (rows.length - off) off le_rfl
  intro n
  induction n with
  | zero =>
    intro off hoff
    have hpage : paginate_users rows k off = [] := by
      unfold paginate_users
      rw [List.drop_eq_nil_of_le (by omega)]
      simp
    rw [lazy_paginate_from_empty rows k off hpage]
    have : rows.length - off = 0 := by omega
    rw [this, Nat.div_eq_of_lt (by omega)]
    rfl
  | succ n ih =>
    intro off hoff
    by_cases hpage : paginate_users rows k off = []
    · have hnil : rows.drop off = [] := by
        rcases List.take_eq_nil_iff.mp hpage with h | h
        · omega
        · exact h
      have hz : rows.length - off = 0 := by
        have := List.drop_eq_nil_iff.mp hnil
        omega
      rw [lazy_paginate_from_empty rows k off hpage, hz,
        Nat.div_eq_of_lt (by omega)]
      rfl
    · have hlt := (paginate_users_ne_nil rows k off hpage).2
      rw [lazy_paginate_from_cons rows k off hpage, List.length_cons,
        ih (off + k) (by omega)]
      rcases Nat.lt_or_ge (rows.length - off) k with hnk | hnk
      · have h1 : rows.length - (off + k) = 0 := by omega
        have h2 : rows.length - off + k - 1 =
            (rows.length - off - 1) + k := by omega
        have e1 : (0 + k - 1) / k = 0 := Nat.div_eq_of_lt (by omega)
        have e2 : (rows.length - off - 1) / k = 0 :=
          Nat.div_eq_of_lt (by omega)
        rw [h1, h2, Nat.add_div_right _ hk, e1, e2]
      · have h1 : rows.length - (off + k) + k - 1 =
            rows.length - off - 1 := by omega
        have h2 : rows.length - off + k - 1 =
            (rows.length - off - 1) + k := by omega
        rw [h1, h2, Nat.add_div_right _ hk]

/-- Every yielded page is non-empty and no longer than the page size. -/
theorem lazy_paginate_from_sizes {α : Type} (rows : List α) (k : Nat) :
    ∀ off p, p ∈ lazy_paginate_from rows k off → p.length ≤ k ∧ p ≠ [] := by
  suffices H : ∀ n off, rows.length - off ≤ n →
      ∀ p, p ∈ lazy_paginate_from rows k off → p.length ≤ k ∧ p ≠ [] from
    fun off => H (rows.length - off) off le_rfl
  intro n
  induction n with
  | zero =>
    intro off hoff p hp
    have hpage : paginate_users rows k off = [] := by
      unfold paginate_users
      rw [List.drop_eq_nil_of_le (by omega)]
      simp
    rw [lazy_paginate_from_empty rows k off hpage] at hp
    simp at hp
  | succ n ih =>
    intro off hoff p hp
    by_cases hpage : paginate_users rows k off = []
    · rw [lazy_paginate_from_empty rows k off hpage] at hp
      simp at hp
    · obtain ⟨hkz, hlt⟩ := paginate_users_ne_nil rows k off hpage
      rw [lazy_paginate_from_cons rows k off hpage] at hp
      rcases List.mem_cons.mp hp with hp | hp
      · subst hp
        refine ⟨?_, hpage⟩
        unfold paginate_users
        rw [List.length_take]
        exact min_le_left _ _
      · exact ih (off + k) (by omega) p hp

/-- Every yielded page except possibly the last is exactly full. -/
theorem lazy_paginate_from_full {α : Type} (rows : List α) (k : Nat) :
    ∀ off p, p ∈ (lazy_paginate_from rows k off).dropLast →
      p.length = k := by
  suffices H : ∀ n off, rows.length - off ≤ n →
      ∀ p, p ∈ (lazy_paginate_from rows k off).dropLast → p.length = k from
    fun off => H (rows.length - off) off le_rfl
  intro n
  induction n with
  | zero =>
    intro off hoff p hp
    have hpage : paginate_users rows k off = [] := by
      unfold paginate_users
      rw [List.drop_eq_nil_of_le (by omega)]
      simp
    rw [lazy_paginate_from_empty rows k off hpage] at hp
    simp at hp
  | succ n ih =>
    intro off hoff p hp
    by_cases hpage : paginate_users rows k off = []
    · rw [lazy_paginate_from_empty rows k off hpage] at hp
      simp at hp
    · obtain ⟨hkz, hlt⟩ := paginate_users_ne_nil rows k off hpage
      rw [lazy_paginate_from_cons rows k off hpage] at hp
      by_cases hrest : lazy_paginate_from rows k (off + k) = []
      · rw [hrest] at hp
        simp at hp
      · rw [List.dropLast_cons_of_ne_nil hrest] at hp
        rcases List.mem_cons.mp hp with hp | hp
        · subst hp
          have hnext : paginate_users rows k (off + k) ≠ [] := by
            intro hnil
            exact hrest (lazy_paginate_from_empty rows k (off + k) hnil)
          have hlt2 := (paginate_users_ne_nil rows k (off + k) hnext).2
          unfold paginate_users
          rw [List.length_take, List.length_drop]
          omega
        · exact ih (off + k) (by omega) p hp

/-- The fetch immediately after the yielded pages is the empty page: the
generator stops exactly at the first empty fetch. -/
theorem lazy_paginate_from_next_empty {α : Type} (rows : List α) (k : Nat) :
    ∀ off, paginate_users rows k
      (off + k * (lazy_paginate_from rows k off).length) = [] := by
  suffices H : ∀ n off, rows.length - off ≤ n →
      paginate_users rows k
        (off + k * (lazy_paginate_from rows k off).length) = [] from
    fun off => H (rows.length - off) off le_rfl
  intro n
  induction n with
  | zero =>
    intro off hoff
    have hpage : paginate_users rows k off = [] := by
      unfold paginate_users
      rw [List.drop_eq_nil_of_le (by omega)]
      simp
    rw [lazy_paginate_from_empty rows k off hpage]
    simpa using hpage
  | succ n ih =>
    intro off hoff
    by_cases hpage : paginate_users rows k off = []
    · rw [lazy_paginate_from_empty rows k off hpage]
      simpa using hpage
    · obtain ⟨hkz, hlt⟩ := paginate_users_ne_nil rows k off hpage
      rw [lazy_paginate_from_cons rows k off hpage, List.length_cons,
        Nat.mul_succ]
      have harr : off + (k * (lazy_paginate_from rows k (off + k)).length
          + k) = (off + k) +
          k * (lazy_paginate_from rows k (off + k)).length := by omega
      rw [harr]
      exact ih (off + k) (by omega)

/-- C8: for positive page size `k`, the generator yields exactly
`⌈N / k⌉` pages covering the table in offset order, every page except
possibly the last has exactly `k` rows, every page is non-empty and at
most `k` rows, and the generator stops exactly when a fetch first returns
the empty page (the function itself is total, which is the termination
claim). -/
theorem c8_lazy_paginate_spec {α : Type} (rows : List α) (k : Nat)
    (hk : 0 < k) :
    (lazy_paginate rows k).flatten = rows ∧
    (lazy_paginate rows k).length = (rows.length + k - 1) / k ∧
    (∀ p ∈ (lazy_paginate rows k).dropLast, p.length = k) ∧
    (∀ p ∈ lazy_paginate rows k, p.length ≤ k ∧ p ≠ []) ∧
    paginate_users rows k (k * (lazy_paginate rows k).length) = [] := by
  unfold lazy_paginate
  refine ⟨?_, ?_, ?_, ?_, ?_⟩
  · simpa using lazy_paginate_from_flatten rows k hk 0
  · simpa using lazy_paginate_from_length rows k hk 0
  · exact fun p hp => lazy_paginate_from_full rows k 0 p hp
  · exact fun p hp => lazy_paginate_from_sizes rows k 0 p hp
  · simpa using lazy_paginate_from_next_empty rows k 0

/-- The five-row table used to witness `c8_lazy_paginate_spec`. -/
def c8w_rows : List Nat := [10, 20, 30, 40, 50]

/-- Witness for `c8_lazy_paginate_spec` with page size 2 over 5 rows. -/
theorem c8_lazy_paginate_witness :
    (lazy_paginate c8w_rows 2).flatten = c8w_rows ∧
    (lazy_paginate c8w_rows 2).length = (c8w_rows.length + 2 - 1) / 2 ∧
    (∀ p ∈ (lazy_paginate c8w_rows 2).dropLast, p.length = 2) ∧
    (∀ p ∈ lazy_paginate c8w_rows 2, p.length ≤ 2 ∧ p ≠ []) ∧
    paginate_users c8w_rows 2 (2 * (lazy_paginate c8w_rows 2).length) =
      [] :=
  c8_lazy_paginate_spec c8w_rows 2 (by decide)

/-! ### Claim C9: bounded-depth "all replies" retrieval -/

/-- `ORDER BY timestamp`: insert one message into a timestamp-sorted
list. -/
def insert_by_timestamp (m : Message) : List Message → List Message
  | [] => [m]
  | x :: xs =>
    if m.timestamp ≤ x.timestamp then m :: x :: xs
    else x :: insert_by_timestamp m xs

/-- `ORDER BY timestamp` over a whole result set (insertion sort). -/
def order_by_timestamp : List Message → List Message
  | [] => []
  | x :: xs => insert_by_timestamp x (order_by_timestamp xs)

theorem mem_insert_by_timestamp (a m : Message) (l : List Message) :
    a ∈ insert_by_timestamp m l ↔ a = m ∨ a ∈ l := by
  induction l with
  | nil => simp [insert_by_timestamp]
  | cons x xs ih =>
    unfold insert_by_timestamp
    split
    · simp
    · simp only [List.mem_cons, ih]
      tauto

theorem mem_order_by_timestamp (a : Message) (l : List Message) :
    a ∈ order_by_timestamp l ↔ a ∈ l := by
  induction l with
  | nil => simp [order_by_timestamp]
  | cons x xs ih =>
    unfold order_by_timestamp
    rw [mem_insert_by_timestamp, ih]
    simp

theorem pairwise_insert_by_timestamp (m : Message) (l : List Message)
    (h : List.Pairwise (fun a b => a.timestamp ≤ b.timestamp) l) :
    List.Pairwise (fun a b => a.timestamp ≤ b.timestamp)
      (insert_by_timestamp m l) := by
  induction l with
  | nil => simp [insert_by_timestamp]
  | cons x xs ih =>
    unfold insert_by_timestamp
    rw [List.pairwise_cons] at h
    split
    · rename_i hle
      rw [List.pairwise_cons]
      refine ⟨?_, List.pairwise_cons.mpr h⟩
      intro b hb
      rcases List.mem_cons.mp hb with rfl | hb
      · exact hle
      · exact le_trans hle (h.1 b hb)
    · rename_i hgt
      rw [List.pairwise_cons]
      refine ⟨?_, ih h.2⟩
      intro b hb
      rcases (mem_insert_by_timestamp b m xs).mp hb with rfl | hb
      · omega
      · exact h.1 b hb

theorem pairwise_order_by_timestamp (l : List Message) :
    List.Pairwise (fun a b => a.timestamp ≤ b.timestamp)
      (order_by_timestamp l) := by
  induction l with
  | nil => simp [order_by_timestamp]
  | cons x xs ih => exact pairwise_insert_by_timestamp x _ ih

/-- `Q(parent_message=self)`: the row's parent is the target message. -/
def parent_eq (t : Nat) (m : Message) : Bool :=
  m.parent_message == some t

/-- `Q(parent_message__parent_message=self)`: join to the parent row and
compare its parent with the target. -/
def parent_parent_eq (msgs : List Message) (t : Nat) (m : Message) : Bool :=
  match m.parent_message with
  | none => false
  | some p =>
    match Message.objects_get msgs p with
    | none => false
    | some q => q.parent_message == some t

/-- `Q(parent_message__parent_message__parent_message=self)`. -/
def parent3_eq (msgs : List Message) (t : Nat) (m : Message) : Bool :=
  match m.parent_message with
  | none => false
  | some p =>
    match Message.objects_get msgs p with
    | none => false
    | some q => parent_parent_eq msgs t q

/-- `Message.get_all_replies` (models.py lines 98-105): the rows matching
the three-level parent disjunction, ordered by timestamp. -/
def get_all_replies (msgs : List Message) (self : Message) :
    List Message :=
  match self.pk with
  | none => []
  | some t =>
    order_by_timestamp (msgs.filter
      (fun m => parent_eq t m || parent_parent_eq msgs t m ||
        parent3_eq msgs t m))

/-- Specification-side notion: `m` is a descendant of the message with
primary key `t` at depth exactly `n`, each ancestry step witnessed by a
persisted row of the table. -/
inductive DescendsAt (msgs : List Message) (t : Nat) : Nat → Message → Prop
  | one (m : Message) : m.parent_message = some t → DescendsAt msgs t 1 m
  | step (n : Nat) (m q : Message) (p : Nat) : q ∈ msgs →
      m.parent_message = some p → q.pk = some p →
      DescendsAt msgs t n q → DescendsAt msgs t (n + 1) m

theorem not_descendsAt_zero (msgs : List Message) (t : Nat) (m : Message)
    (h : DescendsAt msgs t 0 m) : False := by
  cases h

/-- With primary keys unique across the table, the lookup by key finds
exactly the member row bearing that key. -/
theorem objects_get_eq_of_mem (msgs : List Message) (q : Message) (p : Nat)
    (hnd : (msgs.filterMap Message.pk).Nodup) (hq : q ∈ msgs)
    (hpk : q.pk = some p) : Message.objects_get msgs p = some q := by
  induction msgs with
  | nil => cases hq
  | cons x xs ih =>
    by_cases hx : (x.pk == some p) = true
    · rcases List.mem_cons.mp hq with rfl | hq'
      · simp [Message.objects_get, List.find?_cons, hx]
      · exfalso
        have hxpk : x.pk = some p := by simpa using hx
        have hmem : p ∈ xs.filterMap Message.pk :=
          List.mem_filterMap.mpr ⟨q, hq', hpk⟩
        have hcons : (x :: xs).filterMap Message.pk =
            p :: xs.filterMap Message.pk := by
          simp [List.filterMap_cons, hxpk]
        rw [hcons] at hnd
        exact (List.nodup_cons.mp hnd).1 hmem
    · rcases List.mem_cons.mp hq with rfl | hq'
      · exact absurd (by simp [hpk]) hx
      · have hnd' : (xs.filterMap Message.pk).Nodup := by
          cases hxo : x.pk with
          | none =>
            rwa [show (x :: xs).filterMap Message.pk =
              xs.filterMap Message.pk from by
                simp [List.filterMap_cons, hxo]] at hnd
          | some v =>
            rw [show (x :: xs).filterMap Message.pk =
              v :: xs.filterMap Message.pk from by
                simp [List.filterMap_cons, hxo]] at hnd
            exact (List.nodup_cons.mp hnd).2
        have hr := ih hnd' hq'
        simpa [Message.objects_get, List.find?_cons, hx] using hr

theorem parent_eq_iff (msgs : List Message) (t : Nat) (m : Message) :
    parent_eq t m = true ↔ DescendsAt msgs t 1 m := by
  constructor
  · intro h
    exact .one m (by simpa [parent_eq] using h)
  · intro h
    cases h with
    | one _ hm => simp [parent_eq, hm]
    | step n _ q p hq hm hqpk hd =>
      exact absurd hd (fun hh => not_descendsAt_zero msgs t q hh)

theorem parent_parent_eq_iff (msgs : List Message) (t : Nat) (m : Message)
    (hnd : (msgs.filterMap Message.pk).Nodup) :
    parent_parent_eq msgs t m = true ↔ DescendsAt msgs t 2 m := by
  constructor
  · intro h
    unfold parent_parent_eq at h
    split at h
    · exact absurd h (by simp)
    · rename_i p heq
      split at h
      · exact absurd h (by simp)
      · rename_i q hg
        have hqm : q ∈ msgs := List.mem_of_find?_eq_some hg
        have hqpk : q.pk = some p := by
          have := List.find?_some hg
          simpa using this
        exact .step 1 m q p hqm heq hqpk (.one q (by simpa using h))
  · intro h
    cases h with
    | step n _ q p hq hm hqpk hd =>
      have hqt : q.parent_message = some t := by
        cases hd with
        | one _ h1 => exact h1
        | step n' _ q' p' _ _ _ hd' =>
          exact absurd hd' (fun hh => not_descendsAt_zero msgs t q' hh)
      unfold parent_parent_eq
      rw [hm]
      dsimp only
      rw [objects_get_eq_of_mem msgs q p hnd hq hqpk]
      dsimp only
      simp [hqt]

theorem parent3_eq_iff (msgs : List Message) (t : Nat) (m : Message)
    (hnd : (msgs.filterMap Message.pk).Nodup) :
    parent3_eq msgs t m = true ↔ DescendsAt msgs t 3 m := by
  constructor
  · intro h
    unfold parent3_eq at h
    split at h
    · exact absurd h (by simp)
    · rename_i p heq
      split at h
      · exact absurd h (by simp)
      · rename_i q hg
        have hqm : q ∈ msgs := List.mem_of_find?_eq_some hg
        have hqpk : q.pk = some p := by
          have := List.find?_some hg
          simpa using this
        exact .step 2 m q p hqm heq hqpk
          ((parent_parent_eq_iff msgs t q hnd).mp h)
  · intro h
    cases h with
    | step n _ q p hq hm hqpk hd =>
      unfold parent3_eq
      rw [hm]
      dsimp only
      rw [objects_get_eq_of_mem msgs q p hnd hq hqpk]
      dsimp only
      exact (parent_parent_eq_iff msgs t q hnd).mpr hd

/-- C9: `get_all_replies` returns exactly the table rows that are
descendants of the target message at depths 1, 2 or 3 (deeper descendants
are excluded), and the result is ordered by timestamp.  Primary keys are
assumed unique, as for database rows. -/
theorem c9_get_all_replies_spec (msgs : List Message) (self : Message)
    (t : Nat) (hnd : (msgs.filterMap Message.pk).Nodup)
    (hpk : self.pk = some t) :
    (∀ m, m ∈ get_all_replies msgs self ↔
      (m ∈ msgs ∧ (DescendsAt msgs t 1 m ∨ DescendsAt msgs t 2 m ∨
        DescendsAt msgs t 3 m))) ∧
    List.Pairwise (fun a b => a.timestamp ≤ b.timestamp)
      (get_all_replies msgs self) := by
  unfold get_all_replies
  rw [hpk]
  dsimp only
  constructor
  · intro m
    rw [mem_order_by_timestamp, List.mem_filter]
    simp only [Bool.or_eq_true]
    rw [parent_eq_iff msgs t m, parent_parent_eq_iff msgs t m hnd,
      parent3_eq_iff msgs t m hnd]
    tauto
  · exact pairwise_order_by_timestamp _

/-- A five-message reply chain 1 ← 2 ← 3 ← 4 ← 5 for witnessing C9;
message 5 is nested four levels below message 1. -/
def c9w_mk (i : Nat) (par : Option Nat) (ts : Nat) : Message :=
  { pk := some i, sender := 1, receiver := 2, content := "m",
    timestamp := ts, edited := false, edited_at := none,
    parent_message := par, thread_level := 0, reply_count := 0 }

def c9w_m1 : Message := c9w_mk 1 none 0
def c9w_m2 : Message := c9w_mk 2 (some 1) 4
def c9w_m3 : Message := c9w_mk 3 (some 2) 3
def c9w_m4 : Message := c9w_mk 4 (some 3) 2
def c9w_m5 : Message := c9w_mk 5 (some 4) 1

def c9w_msgs : List Message := [c9w_m1, c9w_m2, c9w_m3, c9w_m4, c9w_m5]

/-- Witness for `c9_get_all_replies_spec` on the concrete chain: the
membership characterisation instantiated at the depth-4 message, plus the
timestamp ordering of the result. -/
theorem c9_get_all_replies_witness :
    (c9w_m5 ∈ get_all_replies c9w_msgs c9w_m1 ↔
      (c9w_m5 ∈ c9w_msgs ∧ (DescendsAt c9w_msgs 1 1 c9w_m5 ∨
        DescendsAt c9w_msgs 1 2 c9w_m5 ∨ DescendsAt c9w_msgs 1 3 c9w_m5))) ∧
    List.Pairwise (fun a b => a.timestamp ≤ b.timestamp)
      (get_all_replies c9w_msgs c9w_m1) := by
  have h := c9_get_all_replies_spec c9w_msgs c9w_m1 1 (by decide) rfl
  exact ⟨h.1 c9w_m5, h.2⟩

/-! ### Claim C10: retry_on_failure -/

/-- The retry loop of `retry_on_failure`
(3-retry_on_failure.py lines 52-77): attempt `f attempt`; on success
return its result; on failure, stop and re-raise when this was the last
allowed attempt (`attempt == retries`), else retry after the sleep (which
has no observable effect in the model).  `remaining = retries - attempt`
makes the loop structurally recursive; `f i` is the outcome of the i-th
invocation of the wrapped function, an exception modelled as `.error`. -/
def retry_run {ε α : Type} (f : Nat → Except ε α) :
    Nat → Nat → Except ε α
  | remaining, attempt =>
    match f attempt with
    | .ok a => .ok a
    | .error e =>
      match remaining with
      | 0 => .error e
      | r + 1 => retry_run f r (attempt + 1)

/-- The wrapper produced by `retry_on_failure(retries, delay)` applied to
`f`: run the loop over attempts `0 .. retries`. -/
def retry_on_failure {ε α : Type} (retries : Nat)
    (f : Nat → Except ε α) : Except ε α :=
  retry_run f retries 0

/-- The loop inspects only attempts `a .. a + r`. -/
theorem retry_run_congr {ε α : Type} (f g : Nat → Except ε α) :
    ∀ (r a : Nat), (∀ i, a ≤ i → i ≤ a + r → f i = g i) →
      retry_run f r a = retry_run g r a := by
  intro r
  induction r with
  | zero =>
    intro a h
    unfold retry_run
    rw [h a le_rfl (by omega)]
  | succ r ih =>
    intro a h
    unfold retry_run
    rw [h a le_rfl (by omega)]
    cases g a with
    | ok v => rfl
    | error e =>
      dsimp only
      exact ih (a + 1) (fun i h1 h2 => h i (by omega) (by omega))

/-- If every attempt in range fails, the loop returns the failure of the
final attempt. -/
theorem retry_run_all_fail {ε α : Type} (f : Nat → Except ε α) :
    ∀ (r a : Nat), (∀ i, a ≤ i → i ≤ a + r → ∃ e, f i = .error e) →
      retry_run f r a = f (a + r) := by
  intro r
  induction r with
  | zero =>
    intro a h
    obtain ⟨e, he⟩ := h a le_rfl (by omega)
    unfold retry_run
    rw [he]
    dsimp only
    simpa using he.symm
  | succ r ih =>
    intro a h
    obtain ⟨e, he⟩ := h a le_rfl (by omega)
    unfold retry_run
    rw [he]
    dsimp only
    rw [ih (a + 1) (fun i h1 h2 => h i (by omega) (by omega))]
    congr 1
    omega

/-- The loop returns the value of the first succeeding attempt. -/
theorem retry_run_first_ok {ε α : Type} (f : Nat → Except ε α) (v : α) :
    ∀ (r a j : Nat), a ≤ j → j ≤ a + r → f j = .ok v →
      (∀ i, a ≤ i → i < j → ∃ e, f i = .error e) →
      retry_run f r a = .ok v := by
  intro r
  induction r with
  | zero =>
    intro a j h1 h2 hok hfail
    have : j = a := by omega
    subst this
    unfold retry_run
    rw [hok]
  | succ r ih =>
    intro a j h1 h2 hok hfail
    by_cases haj : a = j
    · subst haj
      unfold retry_run
      rw [hok]
    · obtain ⟨e, he⟩ := hfail a le_rfl (by omega)
      unfold retry_run
      rw [he]
      dsimp only
      exact ih (a + 1) j (by omega) (by omega) hok
        (fun i hi1 hi2 => hfail i (by omega) hi2)

/-- C10: the wrapper built by `retry_on_failure(retries, delay)` consults
only the outcomes of attempts `0 .. retries` (so the wrapped function is
invoked at most `retries + 1` times), returns the result of the first
invocation that does not raise, and — when every one of the `retries + 1`
invocations raises — re-raises the exception of the final invocation. -/
theorem c10_retry_spec {ε α : Type} (f g : Nat → Except ε α)
    (retries : Nat) (v : α) (j : Nat) :
    ((∀ i, i ≤ retries → f i = g i) →
      retry_on_failure retries f = retry_on_failure retries g) ∧
    ((∀ i, i ≤ retries → ∃ e, f i = .error e) →
      retry_on_failure retries f = f retries) ∧
    (j ≤ retries → f j = .ok v → (∀ i, i < j → ∃ e, f i = .error e) →
      retry_on_failure retries f = .ok v) := by
  refine ⟨?_, ?_, ?_⟩
  · intro h
    exact retry_run_congr f g retries 0 (fun i h1 h2 => h i (by omega))
  · intro h
    unfold retry_on_failure
    rw [retry_run_all_fail f retries 0 (fun i h1 h2 => h i (by omega))]
    congr 1
    omega
  · intro h1 hok hfail
    exact retry_run_first_ok f v retries 0 j (by omega) (by omega) hok
      (fun i hi1 hi2 => hfail i hi2)

/-- Concrete wrapped function for the C10 witness: attempts 0 raises,
attempt 1 succeeds with 5. -/
def c10w_f : Nat → Except Unit Nat :=
  fun i => if i = 1 then .ok 5 else .error ()

/-- Witness for `c10_retry_spec`: with `retries = 3`, the wrapper returns
the result of the first succeeding invocation. -/
theorem c10_retry_witness : retry_on_failure 3 c10w_f = Except.ok 5 :=
  (c10_retry_spec c10w_f c10w_f 3 5 1).2.2 (by decide) rfl
    (fun i hi => ⟨(), by
      have h0 : i = 0 := by omega
      subst h0
      rfl⟩)
